import Mathlib

/-!
Verification of the RescueLink telemetry generators
(`mqtt_data_generator.py`, `mqtt_data_generator_realtime.py`,
`ambulance_simulator.py`) against their design specification.

The Python sources are shallowly embedded: floating-point values become
real numbers, random draws become explicit parameters, and the one
fallible operation (a division whose divisor can be zero, which raises
`ZeroDivisionError` in Python) returns `Option`.
-/

open Real

/-- A route control point, as in the `ROUTE_WAYPOINTS` dictionaries
(`{"lat": ..., "lon": ...}`). -/
structure Waypoint where
  lat : ℝ
  lon : ℝ

/-- Python `math.radians`. -/
noncomputable def radians (x : ℝ) : ℝ := x * Real.pi / 180

/-- Python `math.atan2`, with the sign conventions of the C library / Python:
`atan2 y x` is the angle of the point `(x, y)` in `(-π, π]`, and
`atan2 0 0 = 0`. -/
noncomputable def atan2 (y x : ℝ) : ℝ :=
  if 0 < x then Real.arctan (y / x)
  else if x < 0 then
    (if 0 ≤ y then Real.arctan (y / x) + Real.pi else Real.arctan (y / x) - Real.pi)
  else
    (if 0 < y then Real.pi / 2 else if y < 0 then -(Real.pi / 2) else 0)

/-- Embedding of `RouteSimulator.haversine` from `mqtt_data_generator_realtime.py`
(lines 170-180): `a = sin²(Δφ/2) + cos φ1 · cos φ2 · sin²(Δλ/2)`,
`c = 2·atan2(√a, √(1−a))`, result `R·c` with `R = 6371`. -/
noncomputable def haversine (lat1 lon1 lat2 lon2 : ℝ) : ℝ :=
  let delta_phi := radians (lat2 - lat1)
  let delta_lambda := radians (lon2 - lon1)
  let a := Real.sin (delta_phi / 2) ^ 2 +
    Real.cos (radians lat1) * Real.cos (radians lat2) * Real.sin (delta_lambda / 2) ^ 2
  6371 * (2 * atan2 (Real.sqrt a) (Real.sqrt (1 - a)))

/-- Embedding of `haversine_distance` from `ambulance_simulator.py` (lines 48-62);
identical to `haversine` except it uses `c = 2·asin(√a)`. -/
noncomputable def haversine_distance (lat1 lon1 lat2 lon2 : ℝ) : ℝ :=
  let dlat := radians (lat2 - lat1)
  let dlon := radians (lon2 - lon1)
  let a := Real.sin (dlat / 2) ^ 2 +
    Real.cos (radians lat1) * Real.cos (radians lat2) * Real.sin (dlon / 2) ^ 2
  6371 * (2 * Real.arcsin (Real.sqrt a))

theorem radians_zero : radians 0 = 0 := by
  unfold radians; ring

theorem radians_neg (x : ℝ) : radians (-x) = -radians x := by
  unfold radians; ring

theorem atan2_zero_one : atan2 0 1 = 0 := by
  unfold atan2
  rw [if_pos one_pos]
  simp [Real.arctan_zero]

theorem arctan_nonneg_of {z : ℝ} (h : 0 ≤ z) : 0 ≤ Real.arctan z := by
  have h2 := Real.arctan_strictMono.monotone h
  rwa [Real.arctan_zero] at h2

/-- The haversine `a`-term is symmetric in the two points. -/
theorem haversine_symm_helper (lat1 lon1 lat2 lon2 : ℝ) :
    haversine lat1 lon1 lat2 lon2 = haversine lat2 lon2 lat1 lon1 := by
  simp only [haversine]
  rw [show lat1 - lat2 = -(lat2 - lat1) by ring, show lon1 - lon2 = -(lon2 - lon1) by ring,
    radians_neg, radians_neg, neg_div, neg_div, Real.sin_neg, Real.sin_neg,
    neg_sq, neg_sq, mul_comm (Real.cos (radians lat2))]

theorem haversine_distance_symm_helper (lat1 lon1 lat2 lon2 : ℝ) :
    haversine_distance lat1 lon1 lat2 lon2 = haversine_distance lat2 lon2 lat1 lon1 := by
  simp only [haversine_distance]
  rw [show lat1 - lat2 = -(lat2 - lat1) by ring, show lon1 - lon2 = -(lon2 - lon1) by ring,
    radians_neg, radians_neg, neg_div, neg_div, Real.sin_neg, Real.sin_neg,
    neg_sq, neg_sq, mul_comm (Real.cos (radians lat2))]

theorem haversine_self_helper (lat lon : ℝ) : haversine lat lon lat lon = 0 := by
  simp only [haversine, sub_self, radians_zero, zero_div, Real.sin_zero, ne_eq,
    OfNat.ofNat_ne_zero, not_false_eq_true, zero_pow, mul_zero, add_zero, Real.sqrt_zero,
    sub_zero, Real.sqrt_one, atan2_zero_one]

theorem haversine_distance_self_helper (lat lon : ℝ) : haversine_distance lat lon lat lon = 0 := by
  simp only [haversine_distance, sub_self, radians_zero, zero_div, Real.sin_zero, ne_eq,
    OfNat.ofNat_ne_zero, not_false_eq_true, zero_pow, mul_zero, add_zero, Real.sqrt_zero,
    Real.arcsin_zero]

/-- The value `atan2 y x` is nonnegative whenever `y ≥ 0`. -/
theorem atan2_nonneg {y x : ℝ} (hy : 0 ≤ y) : 0 ≤ atan2 y x := by
  unfold atan2
  split_ifs with h1 h2 h3 h4
  · exact arctan_nonneg_of (div_nonneg hy h1.le)
  · have ha := Real.neg_pi_div_two_lt_arctan (y / x)
    have hpi := Real.pi_pos
    linarith
  · positivity
  · linarith
  · exact le_refl 0

/-- Every haversine leg length is nonnegative. -/
theorem haversine_nonneg (lat1 lon1 lat2 lon2 : ℝ) : 0 ≤ haversine lat1 lon1 lat2 lon2 := by
  unfold haversine
  have h := atan2_nonneg (x := Real.sqrt (1 - (Real.sin (radians (lat2 - lat1) / 2) ^ 2 +
    Real.cos (radians lat1) * Real.cos (radians lat2) * Real.sin (radians (lon2 - lon1) / 2) ^ 2)))
    (Real.sqrt_nonneg (Real.sin (radians (lat2 - lat1) / 2) ^ 2 +
      Real.cos (radians lat1) * Real.cos (radians lat2) * Real.sin (radians (lon2 - lon1) / 2) ^ 2))
  positivity

/-- The leg from the equator to the pole evaluates exactly. -/
theorem haversine_equator_pole : haversine 0 0 90 0 = 6371 * (Real.pi / 2) := by
  have h1 : radians ((90:ℝ) - 0) = Real.pi / 2 := by unfold radians; ring
  have h2 : radians ((0:ℝ) - 0) = 0 := by unfold radians; ring
  simp only [haversine, h1, h2, zero_div, Real.sin_zero, ne_eq, OfNat.ofNat_ne_zero,
    not_false_eq_true, zero_pow, mul_zero, add_zero]
  have h5 : Real.sin (Real.pi / 2 / 2) ^ 2 = 1 / 2 := by
    rw [show Real.pi / 2 / 2 = Real.pi / 4 by ring, Real.sin_pi_div_four, div_pow,
      Real.sq_sqrt (by norm_num : (0:ℝ) ≤ 2)]
    norm_num
  rw [h5, show (1:ℝ) - 1 / 2 = 1 / 2 by norm_num]
  have h7 : (0:ℝ) < Real.sqrt (1 / 2) := Real.sqrt_pos.mpr (by norm_num)
  unfold atan2
  rw [if_pos h7, div_self h7.ne', Real.arctan_one]
  ring

/-- C4: the great-circle distance functions (the `atan2` form in
`mqtt_data_generator_realtime.py` and the `asin` form in
`ambulance_simulator.py`) are symmetric in their two coordinate pairs,
and yield `0` for identical points. -/
theorem C4_haversine_symm_and_self (lat1 lon1 lat2 lon2 lat lon : ℝ) :
    haversine lat1 lon1 lat2 lon2 = haversine lat2 lon2 lat1 lon1 ∧
    haversine lat lon lat lon = 0 ∧
    haversine_distance lat1 lon1 lat2 lon2 = haversine_distance lat2 lon2 lat1 lon1 ∧
    haversine_distance lat lon lat lon = 0 :=
  ⟨haversine_symm_helper lat1 lon1 lat2 lon2, haversine_self_helper lat lon,
    haversine_distance_symm_helper lat1 lon1 lat2 lon2, haversine_distance_self_helper lat lon⟩

/-! ## Route simulator (`RouteSimulator`, `mqtt_data_generator_realtime.py`) -/

/-- Sum of the haversine leg lengths of `prev :: rest`, the loop body of
`RouteSimulator.calculate_total_distance` (lines 161-168). -/
noncomputable def sumLegs : Waypoint → List Waypoint → ℝ
  | _, [] => 0
  | p, q :: rest => haversine p.lat p.lon q.lat q.lon + sumLegs q rest

/-- Embedding of `RouteSimulator.calculate_total_distance`: total route distance in km. -/
noncomputable def calculate_total_distance : List Waypoint → ℝ
  | [] => 0
  | w :: rest => sumLegs w rest

/-- Python `waypoints[-1]`. -/
def lastWp : Waypoint → List Waypoint → Waypoint
  | w, [] => w
  | _, q :: rest => lastWp q rest

/-- The leg-walking loop of `RouteSimulator.get_current_position`
(lines 188-205).  The Python body computes
`progress_in_segment = (distance_traveled - distance_so_far) / segment_distance`
without a zero guard; a zero divisor raises `ZeroDivisionError`, modelled
here as `none`.  The fall-through return is
`(waypoints[-1]["lat"], waypoints[-1]["lon"], ROUTE_DISTANCE_KM)`. -/
noncomputable def walkRoute (prev : Waypoint) (rest : List Waypoint)
    (distance_so_far distance_traveled : ℝ) (lastW : Waypoint) (routeDistanceKm : ℝ) :
    Option (ℝ × ℝ × ℝ) :=
  match rest with
  | [] => some (lastW.lat, lastW.lon, routeDistanceKm)
  | next :: rest2 =>
    let segment_distance := haversine prev.lat prev.lon next.lat next.lon
    if distance_so_far + segment_distance ≥ distance_traveled then
      if segment_distance = 0 then none
      else
        let progress_in_segment := (distance_traveled - distance_so_far) / segment_distance
        some (prev.lat + (next.lat - prev.lat) * progress_in_segment,
          prev.lon + (next.lon - prev.lon) * progress_in_segment,
          distance_traveled)
    else walkRoute next rest2 (distance_so_far + segment_distance) distance_traveled
      lastW routeDistanceKm

/-- Embedding of `RouteSimulator.get_current_position` (lines 182-205), parameterised by
the waypoint list, the speed (`AMBULANCE_SPEED_KPH`), the elapsed time in
seconds, and the configured total route distance (`ROUTE_DISTANCE_KM`):
`distance_traveled = min(speed * elapsed_hours, ROUTE_DISTANCE_KM)`, then
the leg walk.  An empty waypoint list would fault on `waypoints[-1]`
(`none`). -/
noncomputable def get_current_position (waypoints : List Waypoint)
    (speed elapsed_time routeDistanceKm : ℝ) : Option (ℝ × ℝ × ℝ) :=
  let elapsed_hours := elapsed_time / 3600
  let distance_traveled := min (speed * elapsed_hours) routeDistanceKm
  match waypoints with
  | [] => none
  | w :: rest => walkRoute w rest 0 distance_traveled (lastWp w rest) routeDistanceKm

/-- The leg walk as the spec (§4.1) describes it: accumulate per-leg
distance until the leg containing `traveled` is found and linearly
interpolate within it by `progress = (traveled − distanceSoFar)/legDistance`;
per the spec's edge-case rule, a zero-length leg is treated as
instantaneous (`progress = 1`) and never faults. -/
noncomputable def walkSpec (prev : Waypoint) (rest : List Waypoint)
    (distanceSoFar traveled : ℝ) (lastW : Waypoint) (totalDistance : ℝ) :
    Option (ℝ × ℝ × ℝ) :=
  match rest with
  | [] => some (lastW.lat, lastW.lon, totalDistance)
  | next :: rest2 =>
    let legDistance := haversine prev.lat prev.lon next.lat next.lon
    if distanceSoFar + legDistance ≥ traveled then
      let progress := if legDistance = 0 then 1
        else (traveled - distanceSoFar) / legDistance
      some (prev.lat + (next.lat - prev.lat) * progress,
        prev.lon + (next.lon - prev.lon) * progress,
        traveled)
    else walkSpec next rest2 (distanceSoFar + legDistance) traveled lastW totalDistance

/-- The spec's description of `positionAtElapsed` (§4.1), written from its
words: compute `traveled = min(speedKmh·elapsedSeconds/3600, totalDistance)`;
if `traveled` reaches the total distance return the final waypoint,
otherwise walk the waypoint sequence (`walkSpec`, with the spec's
instantaneous handling of zero-length legs). -/
noncomputable def positionAtElapsedSpec (waypoints : List Waypoint)
    (speed elapsed_time totalDistance : ℝ) : Option (ℝ × ℝ × ℝ) :=
  match waypoints with
  | [] => none
  | w :: rest =>
    let traveled := min (speed * (elapsed_time / 3600)) totalDistance
    if totalDistance ≤ traveled then
      some ((lastWp w rest).lat, (lastWp w rest).lon, totalDistance)
    else walkSpec w rest 0 traveled (lastWp w rest) totalDistance

theorem sumLegs_nonneg (p : Waypoint) (rest : List Waypoint) : 0 ≤ sumLegs p rest := by
  induction rest generalizing p with
  | nil => exact le_refl 0
  | cons q rest ih =>
    have h := haversine_nonneg p.lat p.lon q.lat q.lon
    have h2 := ih q
    simp only [sumLegs]
    linarith

/-- When `distance_traveled` exceeds the remaining legs' total length, the
walk falls through to the final waypoint. -/
theorem walkRoute_fall (prev : Waypoint) (rest : List Waypoint)
    (soFar traveled : ℝ) (lw : Waypoint) (D : ℝ)
    (h : soFar + sumLegs prev rest < traveled) :
    walkRoute prev rest soFar traveled lw D = some (lw.lat, lw.lon, D) := by
  induction rest generalizing prev soFar with
  | nil => rfl
  | cons next rest2 ih =>
    have hrest := sumLegs_nonneg next rest2
    simp only [sumLegs] at h
    simp only [walkRoute]
    rw [if_neg (by simp only [ge_iff_le, not_le]; linarith)]
    exact ih next (soFar + haversine prev.lat prev.lon next.lat next.lon) (by linarith)

/-- When the walk returns a position and `distance_traveled` lies within
the legs, the reported distance component is `distance_traveled`. -/
theorem walkRoute_dist_eq (prev : Waypoint) (rest : List Waypoint)
    (soFar traveled : ℝ) (lw : Waypoint) (D : ℝ) (r : ℝ × ℝ × ℝ)
    (hinv : soFar < traveled ∨ rest ≠ [])
    (h : traveled ≤ soFar + sumLegs prev rest)
    (hr : walkRoute prev rest soFar traveled lw D = some r) :
    r.2.2 = traveled := by
  induction rest generalizing prev soFar with
  | nil =>
    rcases hinv with hlt | hne
    · simp only [sumLegs, add_zero] at h
      linarith
    · exact absurd rfl hne
  | cons next rest2 ih =>
    simp only [sumLegs] at h
    simp only [walkRoute] at hr
    by_cases hc : soFar + haversine prev.lat prev.lon next.lat next.lon ≥ traveled
    · rw [if_pos hc] at hr
      by_cases hz : haversine prev.lat prev.lon next.lat next.lon = 0
      · rw [if_pos hz] at hr
        exact absurd hr (by simp)
      · rw [if_neg hz] at hr
        have := Option.some.inj hr
        rw [← this]
    · rw [if_neg hc] at hr
      push_neg at hc
      exact ih next (soFar + haversine prev.lat prev.lon next.lat next.lon)
        (Or.inl hc) (by linarith) hr

/-- The reported distance component never exceeds the configured route
distance, provided `distance_traveled` does not. -/
theorem walkRoute_dist_le (prev : Waypoint) (rest : List Waypoint)
    (soFar traveled : ℝ) (lw : Waypoint) (D : ℝ) (r : ℝ × ℝ × ℝ)
    (hD : traveled ≤ D)
    (hr : walkRoute prev rest soFar traveled lw D = some r) :
    r.2.2 ≤ D := by
  induction rest generalizing prev soFar with
  | nil =>
    simp only [walkRoute] at hr
    have := Option.some.inj hr
    rw [← this]
  | cons next rest2 ih =>
    simp only [walkRoute] at hr
    by_cases hc : soFar + haversine prev.lat prev.lon next.lat next.lon ≥ traveled
    · rw [if_pos hc] at hr
      by_cases hz : haversine prev.lat prev.lon next.lat next.lon = 0
      · rw [if_pos hz] at hr
        exact absurd hr (by simp)
      · rw [if_neg hz] at hr
        have := Option.some.inj hr
        rw [← this]
        exact hD
    · rw [if_neg hc] at hr
      exact ih next (soFar + haversine prev.lat prev.lon next.lat next.lon) hr

/-- Predicate: `p` and `q` are consecutive waypoints of the list. -/
def Adjacent : List Waypoint → Waypoint → Waypoint → Prop
  | [], _, _ => False
  | [_], _, _ => False
  | a :: b :: rest, p, q => (a = p ∧ b = q) ∨ Adjacent (b :: rest) p q

/-- Interpolation within a found leg always uses a fraction in `[0, 1]`
when every leg is positive and the accumulated distance has not passed
`distance_traveled`. -/
theorem walkRoute_convex (prev : Waypoint) (rest : List Waypoint)
    (soFar traveled : ℝ) (lw : Waypoint) (D : ℝ) (r : ℝ × ℝ × ℝ)
    (hchain : List.Chain (fun p q => 0 < haversine p.lat p.lon q.lat q.lon) prev rest)
    (hsoFar : soFar ≤ traveled)
    (hr : walkRoute prev rest soFar traveled lw D = some r) :
    (∃ p q f, Adjacent (prev :: rest) p q ∧ 0 ≤ f ∧ f ≤ 1 ∧
      r.1 = p.lat + (q.lat - p.lat) * f ∧ r.2.1 = p.lon + (q.lon - p.lon) * f) ∨
    (r.1 = lw.lat ∧ r.2.1 = lw.lon) := by
  induction rest generalizing prev soFar with
  | nil =>
    simp only [walkRoute] at hr
    have heq := Option.some.inj hr
    right
    rw [← heq]
    exact ⟨rfl, rfl⟩
  | cons next rest2 ih =>
    rw [List.chain_cons] at hchain
    obtain ⟨hpos, hchain2⟩ := hchain
    simp only [walkRoute] at hr
    by_cases hc : soFar + haversine prev.lat prev.lon next.lat next.lon ≥ traveled
    · rw [if_pos hc, if_neg hpos.ne'] at hr
      have heq := Option.some.inj hr
      left
      refine ⟨prev, next, (traveled - soFar) / haversine prev.lat prev.lon next.lat next.lon,
        Or.inl ⟨rfl, rfl⟩, ?_, ?_, ?_, ?_⟩
      · exact div_nonneg (by linarith) hpos.le
      · rw [div_le_one hpos]
        linarith [hc]
      · rw [← heq]
      · rw [← heq]
    · rw [if_neg hc] at hr
      push_neg at hc
      rcases ih next (soFar + haversine prev.lat prev.lon next.lat next.lon) hchain2 hc.le hr
        with h | h
      · obtain ⟨p, q, f, hadj, h0, h1, hla, hlo⟩ := h
        exact Or.inl ⟨p, q, f, Or.inr hadj, h0, h1, hla, hlo⟩
      · exact Or.inr h

/-- On a route with no zero-length legs the code's walk and the spec's
walk coincide (they differ only in the zero-leg case, where the code
faults and the spec mandates instantaneous progress 1). -/
theorem walkRoute_eq_walkSpec (prev : Waypoint) (rest : List Waypoint)
    (soFar traveled : ℝ) (lw : Waypoint) (D : ℝ)
    (hchain : List.Chain (fun p q => 0 < haversine p.lat p.lon q.lat q.lon) prev rest) :
    walkRoute prev rest soFar traveled lw D = walkSpec prev rest soFar traveled lw D := by
  induction rest generalizing prev soFar with
  | nil => rfl
  | cons next rest2 ih =>
    rw [List.chain_cons] at hchain
    obtain ⟨hpos, hchain2⟩ := hchain
    simp only [walkRoute, walkSpec]
    by_cases hc : soFar + haversine prev.lat prev.lon next.lat next.lon ≥ traveled
    · rw [if_pos hc, if_pos hc, if_neg hpos.ne', if_neg hpos.ne']
    · rw [if_neg hc, if_neg hc]
      exact ih next (soFar + haversine prev.lat prev.lon next.lat next.lon) hchain2

/-- C1 (amended): on every route with at least 2 waypoints, all of whose
legs have positive length, and whose configured total route distance
`ROUTE_DISTANCE_KM` exceeds the waypoint leg-sum (as for the shipped
route), `get_current_position` computes
`traveled = min(speed·elapsed/3600, ROUTE_DISTANCE_KM)`, coincides with
the spec's `positionAtElapsed` (leg walk, interpolation by
`(traveled − distanceSoFar)/legDistance`, final waypoint on arrival,
zero legs instantaneous), and returns the final waypoint once `traveled`
reaches `ROUTE_DISTANCE_KM`.  When instead the leg-sum reaches
`ROUTE_DISTANCE_KM`, the query keeps interpolating mid-route at the cap
and never returns the final waypoint (see the counterexample), and on a
zero-length leg it faults instead of treating it as instantaneous (the
C8 code bug). -/
theorem C1_position_at_elapsed (w : Waypoint) (rest : List Waypoint) (speed t D : ℝ)
    (hlen : 2 ≤ (w :: rest).length) (ht : 0 ≤ t) (hs : 0 < speed)
    (hlegs : List.Chain (fun p q => 0 < haversine p.lat p.lon q.lat q.lon) w rest)
    (hsum : calculate_total_distance (w :: rest) < D) :
    get_current_position (w :: rest) speed t D = positionAtElapsedSpec (w :: rest) speed t D ∧
    (D ≤ speed * (t / 3600) →
      get_current_position (w :: rest) speed t D
        = some ((lastWp w rest).lat, (lastWp w rest).lon, D)) := by
  simp only [calculate_total_distance] at hsum
  constructor
  · simp only [get_current_position, positionAtElapsedSpec]
    by_cases hD : D ≤ min (speed * (t / 3600)) D
    · rw [if_pos hD]
      have hmin : min (speed * (t / 3600)) D = D := le_antisymm (min_le_right _ _) hD
      rw [hmin]
      exact walkRoute_fall w rest 0 D _ D (by linarith)
    · rw [if_neg hD]
      exact walkRoute_eq_walkSpec w rest 0 _ _ D hlegs
  · intro hDle
    have hmin : min (speed * (t / 3600)) D = D :=
      le_antisymm (min_le_right _ _) (le_min hDle (le_refl D))
    simp only [get_current_position, hmin]
    exact walkRoute_fall w rest 0 D _ D (by linarith)

/-- C1 counterexample: on the route `[(0,0), (90,0)]` with configured
route distance 10000 km — smaller than the leg-sum `6371·π/2 ≈ 10007.5` —
at the elapsed time where `traveled = min(speed·t/3600, 10000)` reaches
the total distance 10000, the query still interpolates inside the leg
and the returned latitude is not the final waypoint's: the claim's
"returns the final waypoint once traveled reaches the total distance"
fails for routes whose leg-sum is at least the configured total. -/
theorem C1_counterexample :
    min ((1:ℝ) * (36000000 / 3600)) 10000 = 10000 ∧
    get_current_position [⟨0, 0⟩, ⟨90, 0⟩] 1 36000000 10000
      = some (0 + (90 - 0) * ((10000 - 0) / (6371 * (Real.pi / 2))),
          0 + (0 - 0) * ((10000 - 0) / (6371 * (Real.pi / 2))),
          10000) ∧
    0 + (90 - 0) * (((10000:ℝ) - 0) / (6371 * (Real.pi / 2)))
      ≠ (lastWp ⟨0, 0⟩ [⟨90, 0⟩]).lat := by
  have hpi := Real.pi_gt_d2
  have hL : (10000:ℝ) < 6371 * (Real.pi / 2) := by linarith
  have hpos : (0:ℝ) < 6371 * (Real.pi / 2) := by linarith
  refine ⟨by norm_num, ?_, ?_⟩
  · have hmin : min ((1:ℝ) * (36000000 / 3600)) 10000 = 10000 := by norm_num
    simp only [get_current_position, walkRoute, lastWp]
    rw [hmin, haversine_equator_pole]
    rw [if_pos (by linarith : ((0:ℝ) + 6371 * (Real.pi / 2) ≥ 10000)), if_neg hpos.ne']
  · have hfrac : ((10000:ℝ) - 0) / (6371 * (Real.pi / 2)) < 1 := by
      rw [div_lt_one hpos]
      linarith
    have hfge : (0:ℝ) ≤ ((10000:ℝ) - 0) / (6371 * (Real.pi / 2)) := by positivity
    have hlt : 0 + (90 - 0) * (((10000:ℝ) - 0) / (6371 * (Real.pi / 2))) < 90 := by
      nlinarith
    simp only [lastWp]
    exact ne_of_lt hlt

/-- C5 (amended): for a fixed route and positive speed, the distance
component returned by `get_current_position` is monotone in elapsed time
and never exceeds the configured route distance `ROUTE_DISTANCE_KM`, the
quantity the query caps `traveled` with.  The original bound by the
route's waypoint leg-sum (`calculate_total_distance`) is false of the
code: on fall-through the query reports `ROUTE_DISTANCE_KM`, which for
the shipped route (constant 5.28 km against a leg-sum of about 4.91 km)
exceeds the leg-sum — see the counterexample. -/
theorem C5_traveled_monotone (w : Waypoint) (rest : List Waypoint) (speed t1 t2 D : ℝ)
    (r1 r2 : ℝ × ℝ × ℝ)
    (hrest : rest ≠ []) (hs : 0 < speed) (h12 : t1 ≤ t2)
    (h1 : get_current_position (w :: rest) speed t1 D = some r1)
    (h2 : get_current_position (w :: rest) speed t2 D = some r2) :
    r1.2.2 ≤ r2.2.2 ∧ r1.2.2 ≤ D ∧ r2.2.2 ≤ D := by
  simp only [get_current_position] at h1 h2
  have hm1le : min (speed * (t1 / 3600)) D ≤ min (speed * (t2 / 3600)) D := by
    apply min_le_min _ (le_refl D)
    have hdiv : t1 / 3600 ≤ t2 / 3600 := by linarith
    exact mul_le_mul_of_nonneg_left hdiv hs.le
  have hd1le : r1.2.2 ≤ D :=
    walkRoute_dist_le w rest 0 _ _ D r1 (min_le_right _ _) h1
  have hd2le : r2.2.2 ≤ D :=
    walkRoute_dist_le w rest 0 _ _ D r2 (min_le_right _ _) h2
  refine ⟨?_, hd1le, hd2le⟩
  by_cases hc : min (speed * (t2 / 3600)) D ≤ 0 + sumLegs w rest
  · have e2 : r2.2.2 = min (speed * (t2 / 3600)) D :=
      walkRoute_dist_eq w rest 0 _ _ D r2 (Or.inr hrest) hc h2
    have e1 : r1.2.2 = min (speed * (t1 / 3600)) D :=
      walkRoute_dist_eq w rest 0 _ _ D r1 (Or.inr hrest) (le_trans hm1le hc) h1
    rw [e1, e2]
    exact hm1le
  · push_neg at hc
    have e2 := walkRoute_fall w rest 0 (min (speed * (t2 / 3600)) D) (lastWp w rest) D hc
    rw [e2] at h2
    have heq := Option.some.inj h2
    rw [← heq]
    exact hd1le

/-- C8: on a route whose first leg is zero-length (duplicate consecutive
waypoints), `get_current_position` at `t = 0` reaches the unguarded
division `(distance_traveled - distance_so_far) / segment_distance` with
`segment_distance = 0` — in Python a `ZeroDivisionError` runtime fault,
modelled as `none`; the claimed progress-1 handling does not exist. -/
theorem C8_zero_length_leg_divides_by_zero :
    get_current_position
      [⟨23.183, 77.416⟩, ⟨23.183, 77.416⟩, ⟨23.2156, 77.4304⟩] 40 0 5.28 = none := by
  have hseg : haversine 23.183 77.416 23.183 77.416 = 0 := haversine_self_helper _ _
  have hmin : min ((40:ℝ) * (0 / 3600)) 5.28 = 0 := by norm_num
  simp only [get_current_position, walkRoute]
  rw [hseg, hmin]
  rw [if_pos (by norm_num : ((0:ℝ) + 0 ≥ 0)), if_pos rfl]

/-- C10: with all legs positive, any position the query returns is either
a convex combination (fraction in `[0,1]`) of two consecutive waypoints,
or the final waypoint — it always lies on the route polyline. -/
theorem C10_position_on_polyline (w : Waypoint) (rest : List Waypoint)
    (speed t D : ℝ) (r : ℝ × ℝ × ℝ)
    (hs : 0 ≤ speed) (ht : 0 ≤ t) (hD : 0 ≤ D)
    (hlegs : List.Chain (fun p q => 0 < haversine p.lat p.lon q.lat q.lon) w rest)
    (hr : get_current_position (w :: rest) speed t D = some r) :
    (∃ p q f, Adjacent (w :: rest) p q ∧ 0 ≤ f ∧ f ≤ 1 ∧
      r.1 = p.lat + (q.lat - p.lat) * f ∧ r.2.1 = p.lon + (q.lon - p.lon) * f) ∨
    (r.1 = (lastWp w rest).lat ∧ r.2.1 = (lastWp w rest).lon) := by
  simp only [get_current_position] at hr
  exact walkRoute_convex w rest 0 _ _ D r hlegs
    (le_min (mul_nonneg hs (div_nonneg ht (by norm_num))) hD) hr

theorem getpos_equator_pole :
    get_current_position [⟨0, 0⟩, ⟨90, 0⟩] 1 0 20000 = some (0, 0, 0) := by
  have hpi := Real.pi_pos
  have hpos : (0:ℝ) < 6371 * (Real.pi / 2) := by positivity
  have hmin : min ((1:ℝ) * (0 / 3600)) 20000 = 0 := by norm_num
  simp only [get_current_position, walkRoute, lastWp]
  rw [hmin, haversine_equator_pole]
  rw [if_pos (by linarith : ((0:ℝ) + 6371 * (Real.pi / 2) ≥ 0)), if_neg hpos.ne']
  norm_num

/-- Witness for C1 at a concrete two-waypoint route. -/
theorem C1_witness :
    get_current_position [⟨0, 0⟩, ⟨90, 0⟩] 1 0 20000
      = positionAtElapsedSpec [⟨0, 0⟩, ⟨90, 0⟩] 1 0 20000 ∧
    ((20000:ℝ) ≤ 1 * (0 / 3600) →
      get_current_position [⟨0, 0⟩, ⟨90, 0⟩] 1 0 20000
        = some ((lastWp ⟨0, 0⟩ [⟨90, 0⟩]).lat, (lastWp ⟨0, 0⟩ [⟨90, 0⟩]).lon, 20000)) :=
  C1_position_at_elapsed ⟨0, 0⟩ [⟨90, 0⟩] 1 0 20000 (by simp) (le_refl 0) one_pos
    (List.Chain.cons
      (by
        show 0 < haversine 0 0 90 0
        rw [haversine_equator_pole]
        positivity)
      List.Chain.nil)
    (by
      have hpi := Real.pi_lt_d2
      simp only [calculate_total_distance, sumLegs, haversine_equator_pole, add_zero]
      linarith)

/-- Witness for C5 at a concrete two-waypoint route. -/
theorem C5_witness :
    get_current_position [⟨0, 0⟩, ⟨90, 0⟩] 1 0 20000 = some (0, 0, 0) ∧
    (((0:ℝ), (0:ℝ), (0:ℝ)).2.2 ≤ ((0:ℝ), (0:ℝ), (0:ℝ)).2.2 ∧
      ((0:ℝ), (0:ℝ), (0:ℝ)).2.2 ≤ 20000 ∧ ((0:ℝ), (0:ℝ), (0:ℝ)).2.2 ≤ 20000) :=
  ⟨getpos_equator_pole,
    C5_traveled_monotone ⟨0, 0⟩ [⟨90, 0⟩] 1 0 0 20000 (0, 0, 0) (0, 0, 0)
      (by simp) one_pos (le_refl 0) getpos_equator_pole getpos_equator_pole⟩

/-- C5 counterexample: on the route `[(0,0), (90,0)]` with configured
route distance 20000 km, once `speed·t/3600` passes the leg-sum the walk
falls through and reports the configured distance 20000 — strictly more
than the route's total distance `calculate_total_distance ≈ 10007.5` km:
the claimed bound by the waypoint leg-sum is false of the code (the cap
is the separate `ROUTE_DISTANCE_KM` constant).  The shipped route has the
same shape: leg-sum ≈ 4.91 km against the constant 5.28 km. -/
theorem C5_counterexample :
    get_current_position [⟨0, 0⟩, ⟨90, 0⟩] 1 72000000 20000
      = some ((lastWp ⟨0, 0⟩ [⟨90, 0⟩]).lat, (lastWp ⟨0, 0⟩ [⟨90, 0⟩]).lon, 20000) ∧
    calculate_total_distance [⟨0, 0⟩, ⟨90, 0⟩] < 20000 := by
  have hpi := Real.pi_lt_d2
  have hpi0 := Real.pi_pos
  have hsl : sumLegs ⟨0, 0⟩ [⟨90, 0⟩] = 6371 * (Real.pi / 2) := by
    simp [sumLegs, haversine_equator_pole]
  constructor
  · have hmin : min ((1:ℝ) * (72000000 / 3600)) 20000 = 20000 := by norm_num
    simp only [get_current_position]
    rw [hmin]
    apply walkRoute_fall
    rw [hsl]
    linarith
  · simp only [calculate_total_distance]
    rw [hsl]
    linarith

/-- Witness for C10 at a concrete two-waypoint route. -/
theorem C10_witness :
    (∃ p q f, Adjacent [⟨0, 0⟩, ⟨90, 0⟩] p q ∧ 0 ≤ f ∧ f ≤ 1 ∧
      (((0:ℝ), (0:ℝ), (0:ℝ)) : ℝ × ℝ × ℝ).1 = p.lat + (q.lat - p.lat) * f ∧
      (((0:ℝ), (0:ℝ), (0:ℝ)) : ℝ × ℝ × ℝ).2.1 = p.lon + (q.lon - p.lon) * f) ∨
    ((((0:ℝ), (0:ℝ), (0:ℝ)) : ℝ × ℝ × ℝ).1 = (lastWp ⟨0, 0⟩ [⟨90, 0⟩]).lat ∧
      (((0:ℝ), (0:ℝ), (0:ℝ)) : ℝ × ℝ × ℝ).2.1 = (lastWp ⟨0, 0⟩ [⟨90, 0⟩]).lon) :=
  C10_position_on_polyline ⟨0, 0⟩ [⟨90, 0⟩] 1 0 20000 (0, 0, 0) zero_le_one (le_refl 0)
    (by norm_num)
    (List.Chain.cons
      (by
        show 0 < haversine 0 0 90 0
        rw [haversine_equator_pole]
        positivity)
      List.Chain.nil)
    getpos_equator_pole

/-! ## Vitals generators -/

/-- Python `round(x)`: round half to even, returning an integer. -/
noncomputable def pyRound (x : ℝ) : ℤ :=
  if Int.fract x < 1 / 2 then ⌊x⌋
  else if 1 / 2 < Int.fract x then ⌊x⌋ + 1
  else if Even ⌊x⌋ then ⌊x⌋ else ⌊x⌋ + 1

/-- Python `round(x, 1)`: round to one decimal, half to even. -/
noncomputable def pyRound1 (x : ℝ) : ℝ := (pyRound (10 * x) : ℝ) / 10

/-- Python `round(x, 2)`: round to two decimals, half to even. -/
noncomputable def pyRound2 (x : ℝ) : ℝ := (pyRound (100 * x) : ℝ) / 100

theorem le_pyRound {a : ℤ} {x : ℝ} (h : (a : ℝ) ≤ x) : a ≤ pyRound x := by
  have hf : a ≤ ⌊x⌋ := Int.le_floor.mpr h
  unfold pyRound
  split_ifs <;> omega

theorem pyRound_le {b : ℤ} {x : ℝ} (h : x ≤ (b : ℝ)) : pyRound x ≤ b := by
  have hf : ⌊x⌋ ≤ b := by
    have h2 := Int.floor_le_floor h
    rwa [Int.floor_intCast] at h2
  unfold pyRound
  split_ifs with h1 h2 h3
  · exact hf
  all_goals {
    have hfr : 1 / 2 ≤ Int.fract x := le_of_not_lt h1
    have hlt : (⌊x⌋ : ℝ) < x := by
      have hfl := Int.floor_add_fract x
      linarith
    have : (⌊x⌋ : ℝ) < (b : ℝ) := lt_of_lt_of_le hlt h
    have : ⌊x⌋ < b := by exact_mod_cast this
    omega }

theorem pyRound_mem {a b : ℤ} {x : ℝ} (ha : (a : ℝ) ≤ x) (hb : x ≤ (b : ℝ)) :
    a ≤ pyRound x ∧ pyRound x ≤ b :=
  ⟨le_pyRound ha, pyRound_le hb⟩

/-- Internal state of `VitalsGenerator` (identical fields and clamps in
`mqtt_data_generator.py` lines 76-102 and
`mqtt_data_generator_realtime.py` lines 83-104). -/
structure VitalsState where
  heart_rate : ℝ
  spo2 : ℝ
  systolic : ℝ
  diastolic : ℝ
  temperature : ℝ

/-- One call's five `random.uniform` draws. -/
structure VitalsDraw where
  d_hr : ℝ
  d_spo2 : ℝ
  d_sys : ℝ
  d_dia : ℝ
  d_temp : ℝ

/-- The rounded snapshot `VitalsGenerator.generate` returns. -/
structure VitalsSample where
  hr : ℤ
  spo2 : ℝ
  systolic : ℤ
  diastolic : ℤ
  temp : ℝ

/-- The state-update portion of `VitalsGenerator.generate`: each field
moves by its draw and is clamped with `max lo (min hi ·)` exactly as in
the source (note the SpO2 clamp is `max(95, min(100, ·))`). -/
noncomputable def vitalsStep (s : VitalsState) (d : VitalsDraw) : VitalsState where
  heart_rate := max 60 (min 100 (s.heart_rate + d.d_hr))
  spo2 := max 95 (min 100 (s.spo2 + d.d_spo2))
  systolic := max 110 (min 140 (s.systolic + d.d_sys))
  diastolic := max 70 (min 90 (s.diastolic + d.d_dia))
  temperature := max 36.5 (min 37.5 (s.temperature + d.d_temp))

/-- The returned dictionary of `VitalsGenerator.generate`. -/
noncomputable def vitalsSample (s : VitalsState) : VitalsSample where
  hr := pyRound s.heart_rate
  spo2 := pyRound1 s.spo2
  systolic := pyRound s.systolic
  diastolic := pyRound s.diastolic
  temp := pyRound1 s.temperature

/-- Embedding of `VitalsGenerator.generate`: advance the state, return it with the
rounded snapshot. -/
noncomputable def vitalsGenerate (s : VitalsState) (d : VitalsDraw) :
    VitalsState × VitalsSample :=
  let s2 := vitalsStep s d
  (s2, vitalsSample s2)

/-- Initial state set by `VitalsGenerator.__init__`. -/
noncomputable def vitalsInit : VitalsState :=
  ⟨75, 98, 120, 80, 37.0⟩

/-- The samples produced by a sequence of `generate` calls. -/
noncomputable def vitalsRun (s : VitalsState) : List VitalsDraw → List VitalsSample
  | [] => []
  | d :: ds => (vitalsGenerate s d).2 :: vitalsRun (vitalsGenerate s d).1 ds

theorem clamp_mem {lo hi x : ℝ} (h : lo ≤ hi) :
    lo ≤ max lo (min hi x) ∧ max lo (min hi x) ≤ hi :=
  ⟨le_max_left lo _, max_le h (min_le_left hi x)⟩

/-- Any single generated sample satisfies the clamp bounds, whatever the
incoming state and draws. -/
theorem vitalsSample_bounds (s : VitalsState) (d : VitalsDraw) :
    (60 ≤ (vitalsGenerate s d).2.hr ∧ (vitalsGenerate s d).2.hr ≤ 100) ∧
    (94 ≤ (vitalsGenerate s d).2.spo2 ∧ (vitalsGenerate s d).2.spo2 ≤ 100) ∧
    (110 ≤ (vitalsGenerate s d).2.systolic ∧ (vitalsGenerate s d).2.systolic ≤ 140) ∧
    (70 ≤ (vitalsGenerate s d).2.diastolic ∧ (vitalsGenerate s d).2.diastolic ≤ 90) ∧
    (36.5 ≤ (vitalsGenerate s d).2.temp ∧ (vitalsGenerate s d).2.temp ≤ 37.5) := by
  simp only [vitalsGenerate, vitalsStep, vitalsSample]
  refine ⟨?_, ?_, ?_, ?_, ?_⟩
  · have hb := clamp_mem (x := s.heart_rate + d.d_hr) (by norm_num : (60:ℝ) ≤ 100)
    exact pyRound_mem (a := 60) (b := 100) (by exact_mod_cast hb.1) (by exact_mod_cast hb.2)
  · have hb := clamp_mem (x := s.spo2 + d.d_spo2) (by norm_num : (95:ℝ) ≤ 100)
    have hm : (950:ℤ) ≤ pyRound (10 * max 95 (min 100 (s.spo2 + d.d_spo2))) ∧
        pyRound (10 * max 95 (min 100 (s.spo2 + d.d_spo2))) ≤ 1000 := by
      refine pyRound_mem ?_ ?_
      · push_cast
        linarith [hb.1]
      · push_cast
        linarith [hb.2]
    constructor
    · unfold pyRound1
      have h1 : ((950:ℤ) : ℝ) ≤ (pyRound (10 * max 95 (min 100 (s.spo2 + d.d_spo2))) : ℝ) := by
        exact_mod_cast hm.1
      push_cast at h1
      norm_num
      linarith
    · unfold pyRound1
      have h2 : ((pyRound (10 * max 95 (min 100 (s.spo2 + d.d_spo2)))) : ℝ) ≤ ((1000:ℤ) : ℝ) := by
        exact_mod_cast hm.2
      push_cast at h2
      linarith
  · have hb := clamp_mem (x := s.systolic + d.d_sys) (by norm_num : (110:ℝ) ≤ 140)
    exact pyRound_mem (a := 110) (b := 140) (by exact_mod_cast hb.1) (by exact_mod_cast hb.2)
  · have hb := clamp_mem (x := s.diastolic + d.d_dia) (by norm_num : (70:ℝ) ≤ 90)
    exact pyRound_mem (a := 70) (b := 90) (by exact_mod_cast hb.1) (by exact_mod_cast hb.2)
  · have hb := clamp_mem (x := s.temperature + d.d_temp) (by norm_num : (36.5:ℝ) ≤ 37.5)
    have hm : (365:ℤ) ≤ pyRound (10 * max 36.5 (min 37.5 (s.temperature + d.d_temp))) ∧
        pyRound (10 * max 36.5 (min 37.5 (s.temperature + d.d_temp))) ≤ 375 := by
      refine pyRound_mem ?_ ?_
      · push_cast
        linarith [hb.1]
      · push_cast
        linarith [hb.2]
    constructor
    · unfold pyRound1
      have h1 : ((365:ℤ) : ℝ) ≤ (pyRound (10 * max 36.5 (min 37.5 (s.temperature + d.d_temp))) : ℝ) := by
        exact_mod_cast hm.1
      push_cast at h1
      norm_num
      linarith
    · unfold pyRound1
      have h2 : ((pyRound (10 * max 36.5 (min 37.5 (s.temperature + d.d_temp)))) : ℝ) ≤ ((375:ℤ) : ℝ) := by
        exact_mod_cast hm.2
      push_cast at h2
      norm_num
      linarith

theorem vitalsRun_bounds (s : VitalsState) (draws : List VitalsDraw) (smp : VitalsSample)
    (h : smp ∈ vitalsRun s draws) :
    (60 ≤ smp.hr ∧ smp.hr ≤ 100) ∧
    (94 ≤ smp.spo2 ∧ smp.spo2 ≤ 100) ∧
    (110 ≤ smp.systolic ∧ smp.systolic ≤ 140) ∧
    (70 ≤ smp.diastolic ∧ smp.diastolic ≤ 90) ∧
    (36.5 ≤ smp.temp ∧ smp.temp ≤ 37.5) := by
  induction draws generalizing s with
  | nil => simp [vitalsRun] at h
  | cons d ds ih =>
    simp only [vitalsRun, List.mem_cons] at h
    rcases h with h | h
    · rw [h]
      exact vitalsSample_bounds s d
    · exact ih (vitalsGenerate s d).1 h

/-- C2 (amended): every sample of every run of the random-walk
`VitalsGenerator.generate` (both files), from the initial state and for
arbitrary draws, satisfies the claimed bounds.  (The stateless
`ambulance_simulator.generate_vitals` does not: see the
counterexample.) -/
theorem C2_vitals_clamped (draws : List VitalsDraw) (smp : VitalsSample)
    (h : smp ∈ vitalsRun vitalsInit draws) :
    (60 ≤ smp.hr ∧ smp.hr ≤ 100) ∧
    (94 ≤ smp.spo2 ∧ smp.spo2 ≤ 100) ∧
    (110 ≤ smp.systolic ∧ smp.systolic ≤ 140) ∧
    (70 ≤ smp.diastolic ∧ smp.diastolic ≤ 90) ∧
    (36.5 ≤ smp.temp ∧ smp.temp ≤ 37.5) :=
  vitalsRun_bounds vitalsInit draws smp h

/-- Witness for C2 on a concrete one-step run with zero draws. -/
theorem C2_witness :
    (vitalsGenerate vitalsInit ⟨0, 0, 0, 0, 0⟩).2 ∈ vitalsRun vitalsInit [⟨0, 0, 0, 0, 0⟩] ∧
    ((60 ≤ (vitalsGenerate vitalsInit ⟨0, 0, 0, 0, 0⟩).2.hr ∧
        (vitalsGenerate vitalsInit ⟨0, 0, 0, 0, 0⟩).2.hr ≤ 100) ∧
      (94 ≤ (vitalsGenerate vitalsInit ⟨0, 0, 0, 0, 0⟩).2.spo2 ∧
        (vitalsGenerate vitalsInit ⟨0, 0, 0, 0, 0⟩).2.spo2 ≤ 100) ∧
      (110 ≤ (vitalsGenerate vitalsInit ⟨0, 0, 0, 0, 0⟩).2.systolic ∧
        (vitalsGenerate vitalsInit ⟨0, 0, 0, 0, 0⟩).2.systolic ≤ 140) ∧
      (70 ≤ (vitalsGenerate vitalsInit ⟨0, 0, 0, 0, 0⟩).2.diastolic ∧
        (vitalsGenerate vitalsInit ⟨0, 0, 0, 0, 0⟩).2.diastolic ≤ 90) ∧
      (36.5 ≤ (vitalsGenerate vitalsInit ⟨0, 0, 0, 0, 0⟩).2.temp ∧
        (vitalsGenerate vitalsInit ⟨0, 0, 0, 0, 0⟩).2.temp ≤ 37.5)) :=
  ⟨by simp [vitalsRun], C2_vitals_clamped [⟨0, 0, 0, 0, 0⟩] _ (by simp [vitalsRun])⟩

/-- The snapshot returned by `generate_vitals` in `ambulance_simulator.py`
(lines 117-131): fresh random offsets around fixed base values, with no
clamping.  `r_hr ∈ [-3,5]`, `u_spo2 ∈ [-1,0.8]`, `r_sys ∈ [-5,5]`,
`r_dia ∈ [-3,3]`, `u_temp ∈ [-0.2,0.2]`. -/
noncomputable def generate_vitals (r_hr : ℤ) (u_spo2 : ℝ) (r_sys r_dia : ℤ) (u_temp : ℝ) :
    VitalsSample where
  hr := 77 + r_hr
  spo2 := pyRound1 (95.2 + u_spo2)
  systolic := 138 + r_sys
  diastolic := 88 + r_dia
  temp := pyRound1 (37.1 + u_temp)

/-- C2 counterexample: the cited vitals generation operation
`ambulance_simulator.generate_vitals`, at the legal draw
`random.randint(-5, 5) = 5` for systolic (all other draws zero), returns
systolic `143`, outside the claimed clamp range `[110, 140]`. -/
theorem C2_counterexample :
    ((-5:ℤ) ≤ 5 ∧ (5:ℤ) ≤ 5) ∧
    (generate_vitals 0 0 5 0 0).systolic = 143 ∧
    ¬((generate_vitals 0 0 5 0 0).systolic ≤ 140) := by
  refine ⟨⟨by norm_num, le_refl _⟩, rfl, by norm_num [generate_vitals]⟩

/-! ## ECG generators -/

/-- P-wave phase window of `ECGGenerator.generate` in
`mqtt_data_generator_realtime.py` (line 135: `0.12 < t < 0.28`). -/
def pWindowRT : ℝ × ℝ := (0.12, 0.28)

/-- QRS phase window, realtime variant (line 130: `0.35 < t < 0.45`). -/
def qrsWindowRT : ℝ × ℝ := (0.35, 0.45)

/-- T-wave phase window, realtime variant (line 140: `0.50 < t < 0.75`). -/
def tWindowRT : ℝ × ℝ := (0.50, 0.75)

/-- P-wave phase window of `ECGGenerator.generate` in
`mqtt_data_generator.py` (line 139: `0.0 < t%1 < 0.08`). -/
def pWindowGen : ℝ × ℝ := (0, 0.08)

/-- QRS phase window, generator variant (line 134: `0.1 < t%1 < 0.2`). -/
def qrsWindowGen : ℝ × ℝ := (0.1, 0.2)

/-- T-wave phase window, generator variant (line 144: `0.3 < t%1 < 0.5`). -/
def tWindowGen : ℝ × ℝ := (0.3, 0.5)

/-- One sample value of the realtime ECG generator (lines 126-144):
`t = (phase/(2π)) % 1`, pulse terms inside their windows, plus the noise
term `(random() − 0.5)·0.25` with `u = random.random()`. -/
noncomputable def ecgValueRT (phase u : ℝ) : ℝ :=
  let t := Int.fract (phase / (2 * Real.pi))
  let qrs := if qrsWindowRT.1 < t ∧ t < qrsWindowRT.2 then
    Real.sin ((t - 0.35) / 0.1 * Real.pi) * 5.5 else 0
  let p_wave := if pWindowRT.1 < t ∧ t < pWindowRT.2 then
    Real.sin ((t - 0.15) / 0.16 * Real.pi) * 0.6 else 0
  let t_wave := if tWindowRT.1 < t ∧ t < tWindowRT.2 then
    Real.sin ((t - 0.55) / 0.25 * Real.pi) * 1.2 else 0
  qrs + p_wave + t_wave + (u - 0.5) * 0.25

/-- One sample value of the `mqtt_data_generator.py` ECG generator
(lines 127-148): `t = phase`, windows on `t % 1`, noise
`uniform(-0.05, 0.05)`; the appended sample is `round(·, 2)`. -/
noncomputable def ecgValueGen (phase noise : ℝ) : ℝ :=
  let t := Int.fract phase
  let qrs := if qrsWindowGen.1 < t ∧ t < qrsWindowGen.2 then
    5 * Real.sin ((t - 0.1) * Real.pi / 0.1) else 0
  let p_wave := if pWindowGen.1 < t ∧ t < pWindowGen.2 then
    0.5 * Real.sin (t * Real.pi / 0.08) else 0
  let t_wave := if tWindowGen.1 < t ∧ t < tWindowGen.2 then
    1.2 * Real.sin ((t - 0.3) * Real.pi / 0.2) else 0
  qrs + p_wave + t_wave + noise

/-- The sample appended by the `mqtt_data_generator.py` loop:
`round(sample, 2)`. -/
noncomputable def ecgSampleGen (phase noise : ℝ) : ℝ :=
  pyRound2 (ecgValueGen phase noise)

/-- The cycle position is outside all three realtime pulse windows. -/
def outsideRT (t : ℝ) : Prop :=
  ¬(qrsWindowRT.1 < t ∧ t < qrsWindowRT.2) ∧
  ¬(pWindowRT.1 < t ∧ t < pWindowRT.2) ∧
  ¬(tWindowRT.1 < t ∧ t < tWindowRT.2)

/-- The cycle position is outside all three generator pulse windows. -/
def outsideGen (t : ℝ) : Prop :=
  ¬(qrsWindowGen.1 < t ∧ t < qrsWindowGen.2) ∧
  ¬(pWindowGen.1 < t ∧ t < pWindowGen.2) ∧
  ¬(tWindowGen.1 < t ∧ t < tWindowGen.2)

/-- C3: a sample generated while phase mod 1 is outside all three pulse
windows is pure noise — exactly the noise term, bounded by `0.125`
(realtime, noise `(u−0.5)·0.25`, `u ∈ [0,1)`) resp. `0.05` (generator,
noise `uniform(-0.05,0.05)` rounded to two decimals) — and in both
variants the windows are ordered P < QRS < T with P and QRS disjoint. -/
theorem C3_ecg_outside_windows_pure_noise :
    (∀ phase u, outsideRT (Int.fract (phase / (2 * Real.pi))) →
      ecgValueRT phase u = (u - 0.5) * 0.25) ∧
    (∀ phase u, 0 ≤ u → u ≤ 1 → outsideRT (Int.fract (phase / (2 * Real.pi))) →
      |ecgValueRT phase u| ≤ 0.125) ∧
    (∀ phase noise, outsideGen (Int.fract phase) →
      ecgSampleGen phase noise = pyRound2 noise) ∧
    (∀ phase noise, -0.05 ≤ noise → noise ≤ 0.05 → outsideGen (Int.fract phase) →
      |ecgSampleGen phase noise| ≤ 0.05) ∧
    (pWindowRT.2 ≤ qrsWindowRT.1 ∧ qrsWindowRT.2 ≤ tWindowRT.1 ∧
      pWindowGen.2 ≤ qrsWindowGen.1 ∧ qrsWindowGen.2 ≤ tWindowGen.1) := by
  have hRT : ∀ phase u, outsideRT (Int.fract (phase / (2 * Real.pi))) →
      ecgValueRT phase u = (u - 0.5) * 0.25 := by
    intro phase u h
    obtain ⟨hq, hp, ht⟩ := h
    simp only [ecgValueRT, if_neg hq, if_neg hp, if_neg ht]
    ring
  have hGen : ∀ phase noise, outsideGen (Int.fract phase) →
      ecgValueGen phase noise = noise := by
    intro phase noise h
    obtain ⟨hq, hp, ht⟩ := h
    simp only [ecgValueGen, if_neg hq, if_neg hp, if_neg ht]
    ring
  refine ⟨hRT, ?_, ?_, ?_, ?_⟩
  · intro phase u h0 h1 h
    rw [hRT phase u h, abs_le]
    constructor <;> nlinarith
  · intro phase noise h
    unfold ecgSampleGen
    rw [hGen phase noise h]
  · intro phase noise hlo hhi h
    unfold ecgSampleGen
    rw [hGen phase noise h]
    have hm : (-5:ℤ) ≤ pyRound (100 * noise) ∧ pyRound (100 * noise) ≤ 5 := by
      refine pyRound_mem ?_ ?_
      · push_cast
        linarith
      · push_cast
        linarith
    unfold pyRound2
    rw [abs_le]
    have hm1 : ((-5:ℤ) : ℝ) ≤ (pyRound (100 * noise) : ℝ) := by exact_mod_cast hm.1
    have hm2 : ((pyRound (100 * noise)) : ℝ) ≤ ((5:ℤ) : ℝ) := by exact_mod_cast hm.2
    push_cast at hm1 hm2
    constructor <;> [linarith; linarith]
  · refine ⟨by norm_num [pWindowRT, qrsWindowRT], by norm_num [qrsWindowRT, tWindowRT],
      by norm_num [pWindowGen, qrsWindowGen], by norm_num [qrsWindowGen, tWindowGen]⟩

/-- Witness for C3 at phase 0 (cycle position 0, outside every window). -/
theorem C3_witness :
    ecgValueRT 0 0.5 = ((0.5:ℝ) - 0.5) * 0.25 ∧ |ecgValueRT 0 0.5| ≤ 0.125 ∧
    ecgSampleGen 0.9 0 = pyRound2 0 := by
  have h0 : outsideRT (Int.fract ((0:ℝ) / (2 * Real.pi))) := by
    rw [zero_div, Int.fract_zero]
    refine ⟨?_, ?_, ?_⟩ <;> norm_num [qrsWindowRT, pWindowRT, tWindowRT]
  have h09 : outsideGen (Int.fract (0.9:ℝ)) := by
    have : Int.fract (0.9:ℝ) = 0.9 := Int.fract_eq_self.mpr ⟨by norm_num, by norm_num⟩
    rw [this]
    refine ⟨?_, ?_, ?_⟩ <;> norm_num [qrsWindowGen, pWindowGen, tWindowGen]
  exact ⟨C3_ecg_outside_windows_pure_noise.1 0 0.5 h0,
    C3_ecg_outside_windows_pure_noise.2.1 0 0.5 (by norm_num) (by norm_num) h0,
    C3_ecg_outside_windows_pure_noise.2.2.1 0.9 0 h09⟩

/-- State of `ECGGenerator`: (`phase`, `heart_rate`). -/
structure ECGState where
  phase : ℝ
  heart_rate : ℝ

/-- The per-sample loop of the realtime `ECGGenerator.generate`
(lines 125-147): appends `ecgValueRT` samples and advances
`phase += (heart_rate/60) * (2π)/100` after every sample. -/
noncomputable def ecgStepsRT (heart_rate : ℝ) : List ℝ → ℝ → List ℝ × ℝ
  | [], phase => ([], phase)
  | u :: us, phase =>
    let sample := ecgValueRT phase u
    let r := ecgStepsRT heart_rate us (phase + heart_rate / 60 * (2 * Real.pi) / 100)
    (sample :: r.1, r.2)

/-- Realtime `ECGGenerator.generate` (lines 120-149): draw a heart-rate
step, clamp to `[60, 100]`, then run the sample loop. -/
noncomputable def ecgGenerateRT (st : ECGState) (hrDraw : ℝ) (us : List ℝ) :
    List ℝ × ECGState :=
  let hr := max 60 (min 100 (st.heart_rate + hrDraw))
  let r := ecgStepsRT hr us st.phase
  (r.1, ⟨r.2, hr⟩)

/-- The per-sample loop of `ECGGenerator.generate` in
`mqtt_data_generator.py` (lines 127-152): `phase += (heart_rate/60.0) * 0.01`
after every sample; the heart rate is never updated by this variant. -/
noncomputable def ecgStepsGen (heart_rate : ℝ) : List ℝ → ℝ → List ℝ × ℝ
  | [], phase => ([], phase)
  | n :: ns, phase =>
    let sample := ecgSampleGen phase n
    let r := ecgStepsGen heart_rate ns (phase + heart_rate / 60 * 0.01)
    (sample :: r.1, r.2)

/-- Embedding of `ECGGenerator.generate` of `mqtt_data_generator.py`. -/
noncomputable def ecgGenerateGen (st : ECGState) (ns : List ℝ) : List ℝ × ECGState :=
  let r := ecgStepsGen st.heart_rate ns st.phase
  (r.1, ⟨r.2, st.heart_rate⟩)

/-- The generator state after a sequence of realtime `generate` calls. -/
noncomputable def ecgRunRT (st : ECGState) : List (ℝ × List ℝ) → ECGState
  | [] => st
  | (d, us) :: calls => ecgRunRT (ecgGenerateRT st d us).2 calls

theorem ecgStepsRT_phase (heart_rate : ℝ) (us : List ℝ) (phase : ℝ) :
    (ecgStepsRT heart_rate us phase).2
      = phase + us.length * (heart_rate / 60 * (2 * Real.pi) / 100) := by
  induction us generalizing phase with
  | nil => simp [ecgStepsRT]
  | cons u us ih =>
    simp only [ecgStepsRT, ih, List.length_cons]
    push_cast
    ring

theorem ecgStepsGen_phase (heart_rate : ℝ) (ns : List ℝ) (phase : ℝ) :
    (ecgStepsGen heart_rate ns phase).2
      = phase + ns.length * (heart_rate / 60 * 0.01) := by
  induction ns generalizing phase with
  | nil => simp [ecgStepsGen]
  | cons n ns ih =>
    simp only [ecgStepsGen, ih, List.length_cons]
    push_cast
    ring

theorem ecgGenerateRT_phase_le (st : ECGState) (d : ℝ) (us : List ℝ) :
    st.phase ≤ (ecgGenerateRT st d us).2.phase := by
  simp only [ecgGenerateRT, ecgStepsRT_phase]
  have hhr : (60:ℝ) ≤ max 60 (min 100 (st.heart_rate + d)) := le_max_left _ _
  have hpi := Real.pi_pos
  have : (0:ℝ) ≤ (us.length : ℝ) * (max 60 (min 100 (st.heart_rate + d)) / 60 * (2 * Real.pi) / 100) := by
    apply mul_nonneg (Nat.cast_nonneg _)
    positivity
  linarith

theorem ecgRunRT_phase_le (st : ECGState) (calls : List (ℝ × List ℝ)) :
    st.phase ≤ (ecgRunRT st calls).phase := by
  induction calls generalizing st with
  | nil => exact le_refl _
  | cons c calls ih =>
    obtain ⟨d, us2⟩ := c
    calc st.phase ≤ (ecgGenerateRT st d us2).2.phase := ecgGenerateRT_phase_le st d us2
      _ ≤ (ecgRunRT (ecgGenerateRT st d us2).2 calls).phase := ih _

/-- C9: the ECG phase accumulator only ever advances.  Realtime variant:
each `generate` call with `n ≥ 1` samples adds exactly
`n · (clampedHeartRate/60)·(2π)/100` with a strictly positive per-sample
increment, so the phase strictly increases, and over any sequence of
calls it never decreases or resets.  `mqtt_data_generator.py` variant:
each call adds `n · (heartRate/60)·0.01`, strictly positive for the
(constant) positive heart rate. -/
theorem C9_ecg_phase_strictly_increasing (st stG : ECGState) (hrDraw u n : ℝ)
    (us ns : List ℝ) (calls : List (ℝ × List ℝ)) (hG : 0 < stG.heart_rate) :
    0 < max 60 (min 100 (st.heart_rate + hrDraw)) / 60 * (2 * Real.pi) / 100 ∧
    (ecgGenerateRT st hrDraw (u :: us)).2.phase
      = st.phase + ((u :: us).length : ℝ)
        * (max 60 (min 100 (st.heart_rate + hrDraw)) / 60 * (2 * Real.pi) / 100) ∧
    st.phase < (ecgGenerateRT st hrDraw (u :: us)).2.phase ∧
    st.phase ≤ (ecgRunRT st calls).phase ∧
    0 < stG.heart_rate / 60 * 0.01 ∧
    (ecgGenerateGen stG (n :: ns)).2.phase
      = stG.phase + ((n :: ns).length : ℝ) * (stG.heart_rate / 60 * 0.01) ∧
    stG.phase < (ecgGenerateGen stG (n :: ns)).2.phase := by
  have hhr : (60:ℝ) ≤ max 60 (min 100 (st.heart_rate + hrDraw)) := le_max_left _ _
  have hpi := Real.pi_pos
  have hinc : 0 < max 60 (min 100 (st.heart_rate + hrDraw)) / 60 * (2 * Real.pi) / 100 := by
    positivity
  have hincG : 0 < stG.heart_rate / 60 * 0.01 := by positivity
  have hphase : (ecgGenerateRT st hrDraw (u :: us)).2.phase
      = st.phase + ((u :: us).length : ℝ)
        * (max 60 (min 100 (st.heart_rate + hrDraw)) / 60 * (2 * Real.pi) / 100) := by
    simp only [ecgGenerateRT, ecgStepsRT_phase]
  have hphaseG : (ecgGenerateGen stG (n :: ns)).2.phase
      = stG.phase + ((n :: ns).length : ℝ) * (stG.heart_rate / 60 * 0.01) := by
    simp only [ecgGenerateGen, ecgStepsGen_phase]
  have hlen : (0:ℝ) < ((u :: us).length : ℝ) := by
    simp only [List.length_cons]
    push_cast
    positivity
  have hlenG : (0:ℝ) < ((n :: ns).length : ℝ) := by
    simp only [List.length_cons]
    push_cast
    positivity
  refine ⟨hinc, hphase, ?_, ecgRunRT_phase_le st calls, hincG, hphaseG, ?_⟩
  · rw [hphase]
    nlinarith
  · rw [hphaseG]
    nlinarith

/-- Witness for C9 at concrete states and single-sample calls. -/
theorem C9_witness :
    0 < max 60 (min 100 ((75:ℝ) + 0)) / 60 * (2 * Real.pi) / 100 ∧
    (ecgGenerateRT ⟨0, 75⟩ 0 [0]).2.phase
      = (0:ℝ) + (([0] : List ℝ).length : ℝ) * (max 60 (min 100 ((75:ℝ) + 0)) / 60 * (2 * Real.pi) / 100) ∧
    (0:ℝ) < (ecgGenerateRT ⟨0, 75⟩ 0 [0]).2.phase ∧
    (0:ℝ) ≤ (ecgRunRT ⟨0, 75⟩ []).phase ∧
    0 < (75:ℝ) / 60 * 0.01 ∧
    (ecgGenerateGen ⟨0, 75⟩ [0]).2.phase
      = (0:ℝ) + (([0] : List ℝ).length : ℝ) * ((75:ℝ) / 60 * 0.01) ∧
    (0:ℝ) < (ecgGenerateGen ⟨0, 75⟩ [0]).2.phase :=
  C9_ecg_phase_strictly_increasing ⟨0, 75⟩ ⟨0, 75⟩ 0 0 0 [] [] [] (by norm_num)

/-! ## ETA query and scheduler -/

/-- Python `int()`: truncation toward zero. -/
noncomputable def pyInt (x : ℝ) : ℤ := if 0 ≤ x then ⌊x⌋ else ⌈x⌉

/-- Embedding of `RouteSimulator.get_remaining_time_seconds` (lines 207-218):
`distance_traveled = speed·elapsed/3600` (uncapped),
`remaining = max(0, ROUTE_DISTANCE_KM − traveled)`, `0` when the speed is
zero, else `int(remaining/speed·3600)`. -/
noncomputable def get_remaining_time_seconds (speed elapsed_time routeDistanceKm : ℝ) : ℤ :=
  let elapsed_hours := elapsed_time / 3600
  let distance_traveled := speed * elapsed_hours
  let remaining_distance := max 0 (routeDistanceKm - distance_traveled)
  if speed = 0 then 0
  else pyInt (remaining_distance / speed * 3600)

/-- The `remaining_km` field computed by `publish_eta` (line 259):
`max(0, ROUTE_DISTANCE_KM − speed·elapsed/3600)`. -/
noncomputable def publishEtaRemainingKm (speed elapsed_time routeDistanceKm : ℝ) : ℝ :=
  max 0 (routeDistanceKm - speed * (elapsed_time / 3600))

/-- C6: for positive speed the ETA is `int(max(0, D − traveled)/speed·3600)`
— derived from `totalDistance − traveled` and the speed — is never
negative, and is `0` once `traveled` reaches the total distance; likewise
the published remaining distance is `max(0, D − traveled)`, nonnegative,
and `0` on arrival. -/
theorem C6_eta_nonneg_and_zero_on_arrival (speed t D : ℝ) (hs : 0 < speed) :
    get_remaining_time_seconds speed t D
      = pyInt (max 0 (D - speed * (t / 3600)) / speed * 3600) ∧
    0 ≤ get_remaining_time_seconds speed t D ∧
    (D ≤ speed * (t / 3600) → get_remaining_time_seconds speed t D = 0) ∧
    publishEtaRemainingKm speed t D = max 0 (D - speed * (t / 3600)) ∧
    0 ≤ publishEtaRemainingKm speed t D ∧
    (D ≤ speed * (t / 3600) → publishEtaRemainingKm speed t D = 0) := by
  have hne : speed ≠ 0 := ne_of_gt hs
  have harg : 0 ≤ max 0 (D - speed * (t / 3600)) / speed * 3600 := by
    apply mul_nonneg (div_nonneg (le_max_left 0 _) hs.le)
    norm_num
  refine ⟨?_, ?_, ?_, rfl, le_max_left 0 _, ?_⟩
  · simp only [get_remaining_time_seconds, if_neg hne]
  · simp only [get_remaining_time_seconds, if_neg hne, pyInt, if_pos harg]
    exact Int.le_floor.mpr (by exact_mod_cast harg)
  · intro harr
    have hmax : max 0 (D - speed * (t / 3600)) = 0 := max_eq_left (by linarith)
    simp only [get_remaining_time_seconds, if_neg hne, hmax, zero_div, zero_mul, pyInt,
      if_pos (le_refl (0:ℝ)), Int.floor_zero]
  · intro harr
    exact max_eq_left (by linarith)

/-- Witness for C6: speed 1 km/h, 10 hours elapsed, 5 km route. -/
theorem C6_witness :
    get_remaining_time_seconds 1 36000 5
      = pyInt (max 0 ((5:ℝ) - 1 * (36000 / 3600)) / 1 * 3600) ∧
    0 ≤ get_remaining_time_seconds 1 36000 5 ∧
    ((5:ℝ) ≤ 1 * (36000 / 3600) → get_remaining_time_seconds 1 36000 5 = 0) ∧
    publishEtaRemainingKm 1 36000 5 = max 0 ((5:ℝ) - 1 * (36000 / 3600)) ∧
    0 ≤ publishEtaRemainingKm 1 36000 5 ∧
    ((5:ℝ) ≤ 1 * (36000 / 3600) → publishEtaRemainingKm 1 36000 5 = 0) :=
  C6_eta_nonneg_and_zero_on_arrival 1 36000 5 one_pos

/-- One cadence check of the main loop (`mqtt_data_generator_realtime.py`
lines 331-349, `mqtt_data_generator.py` lines 416-443): fire iff
`now − last_fired ≥ cadence`, and on firing set `last_fired = now`. -/
noncomputable def schedStep (cadence last_fired now : ℝ) : Bool × ℝ :=
  if now - last_fired ≥ cadence then (true, now) else (false, last_fired)

/-- The times at which a producer fires over a sequence of loop
iterations observed at the given clock readings. -/
noncomputable def schedFired (cadence : ℝ) : ℝ → List ℝ → List ℝ
  | _, [] => []
  | last_fired, now :: ticks =>
    if now - last_fired ≥ cadence then now :: schedFired cadence now ticks
    else schedFired cadence last_fired ticks

/-- C7: a producer fires on a tick iff `now − last_fired ≥ cadence`; when
it fires, `last_fired` becomes `now` (otherwise it is unchanged — never
`last_fired + cadence`); and along any run, consecutive firing times
(including the initial `last_fired`) are always at least `cadence`
apart — a producer never fires early. -/
theorem C7_scheduler_cadence (cadence last_fired now : ℝ) (ticks : List ℝ) :
    ((schedStep cadence last_fired now).1 = true ↔ cadence ≤ now - last_fired) ∧
    (schedStep cadence last_fired now).2
      = (if cadence ≤ now - last_fired then now else last_fired) ∧
    List.Chain (fun a b => cadence ≤ b - a) last_fired (schedFired cadence last_fired ticks) := by
  refine ⟨?_, ?_, ?_⟩
  · unfold schedStep
    by_cases h : now - last_fired ≥ cadence
    · rw [if_pos h]
      simpa using h
    · rw [if_neg h]
      simpa using h
  · unfold schedStep
    by_cases h : now - last_fired ≥ cadence
    · rw [if_pos h, if_pos h]
    · rw [if_neg h, if_neg h]
  · induction ticks generalizing last_fired with
    | nil => exact List.Chain.nil
    | cons now2 ticks ih =>
      unfold schedFired
      by_cases h : now2 - last_fired ≥ cadence
      · rw [if_pos h]
        exact List.Chain.cons h (ih now2)
      · rw [if_neg h]
        exact ih last_fired
